import Mathlib

/-!
Shallow embedding of the `alarm` repository (controller.py, main.py, common.py)
and proofs about its control loops.

Modelling conventions:
* GPIO pin levels are `Level`; the GPIO port is an external collaborator
  (per the spec's Digital I/O Port interface): `write` records the level,
  `release_all` marks the port released and is safe to repeat.
* Wall-clock time is idealised: each `time.sleep(q)` advances the clock by
  exactly `q` seconds (a rational).
* A pending `KeyboardInterrupt` is a countdown `Option ℕ`: `some k` means the
  interrupt fires at the k-th upcoming suspension point (the spec's suspension
  points: every sleep call and every blocking device-event read); `none` means
  no interrupt ever arrives.
* Unbounded loops take a fuel argument; running out of fuel models "still
  looping" and is reported by a `false`/`stuck` flag, never confused with a
  normal return.
-/

namespace Alarm

/-- Digital pin level as read from or written to the GPIO port. -/
inductive Level
  | low
  | high
deriving DecidableEq, Repr

namespace Controller

/-- Raw wait status returned by `os.system('systemctl status alarm.service')`;
the process exit code is its high byte (POSIX wait-status convention, which
the source extracts with `>> 8`). -/
def service_status_exit_code (raw : ℕ) : ℕ := raw >>> 8

/-- Embedding of `controller.alarm_service_running`: the source computes
`os.system('systemctl status alarm.service') >> 8 == 0` on the raw status. -/
def alarm_service_running (raw : ℕ) : Bool := raw >>> 8 == 0

/-- Observable events of `controller.start_service` / `controller.stop_service`:
the shell commands issued and the sleeps performed. -/
inductive SEv
  | restartCmd
  | stopCmd
  | statusCmd
  | sleep (q : ℚ)
deriving DecidableEq, Repr

/-- Embedding of `controller.start_service`, parametrised by the raw status
the follow-up `systemctl status` query returns. It issues
`systemctl restart alarm.service`, sleeps 1 second, queries the status and
asserts `alarm_service_running`. Result: the event trace and whether the
assertion raised (`true` = `AssertionError`). -/
def start_service (raw : ℕ) : List SEv × Bool :=
  ([SEv.restartCmd, SEv.sleep 1, SEv.statusCmd], !alarm_service_running raw)

/-- Embedding of `controller.stop_service`: issues
`systemctl stop alarm.service`, sleeps 1 second, queries the status and
asserts `¬ alarm_service_running`. Result: trace and whether the assertion
raised. -/
def stop_service (raw : ℕ) : List SEv × Bool :=
  ([SEv.stopCmd, SEv.sleep 1, SEv.statusCmd], alarm_service_running raw)

/-- Observable events of the `controller.control` loop: sleeps, service
actions (as the loop invokes them) and the GPIO cleanup call. -/
inductive CEv
  | sleep (q : ℚ)
  | start
  | stop
  | cleanup
deriving DecidableEq, Repr

/-- How a run of the `control` loop ends: `interrupted` when the next pin
read raises `KeyboardInterrupt` (the loop catches it, calls `clean_up` and
breaks); `assertFailed running` when a service action's assertion fails and
the `AssertionError` propagates out of the loop (`running` records the value
of the tracked `service_running` variable at that moment — the except clause
only catches `KeyboardInterrupt`). -/
inductive CRes
  | interrupted
  | assertFailed (running : Bool)
deriving DecidableEq, Repr

/-- Loop body of `controller.control`, processing one pin reading per
iteration. `pins` is the finite sequence of readings delivered by
`GPIO.input`; when it is exhausted the next read raises `KeyboardInterrupt`.
`ok n` tells whether the n-th service action (start or stop) leaves the
adapter in the expected state, i.e. whether its internal assertion passes.
Mirrors the source's four-way branch on `(pin_state, service_running)`. -/
def controlAux (ok : ℕ → Bool) : List Level → Bool → ℕ → List CEv × CRes
  | [], _, _ => ([CEv.cleanup], CRes.interrupted)
  | p :: rest, running, acts =>
    match p, running with
    | Level.low, false =>
      let r := controlAux ok rest false acts
      (CEv.sleep 5 :: r.1, r.2)
    | Level.low, true =>
      if ok acts then
        let r := controlAux ok rest false (acts + 1)
        (CEv.stop :: r.1, r.2)
      else ([CEv.stop], CRes.assertFailed true)
    | Level.high, false =>
      if ok acts then
        let r := controlAux ok rest true (acts + 1)
        (CEv.start :: r.1, r.2)
      else ([CEv.start], CRes.assertFailed false)
    | Level.high, true =>
      let r := controlAux ok rest true acts
      (CEv.sleep (1/4) :: r.1, r.2)

/-- Embedding of `controller.control`: the initial tracked state `running0`
is the startup `alarm_service_running()` query. -/
def control (ok : ℕ → Bool) (running0 : Bool) (pins : List Level) :
    List CEv × CRes :=
  controlAux ok pins running0 0

/-- Adapter behaviour in which every service action settles as expected. -/
def allOk : ℕ → Bool := fun _ => true

/-- Transition table of the Service Supervisor state machine as given in the
spec: next tracked state after reading `p` in state `running`. -/
def specNext (running : Bool) (p : Level) : Bool :=
  match running, p with
  | false, Level.low => false
  | true, Level.low => false
  | false, Level.high => true
  | true, Level.high => true

/-- Tracked-state sequence: entry `i` is the tracked service state at the
start of iteration `i` (entry 0 is the initial state). -/
def stateSeq (running0 : Bool) (pins : List Level) : List Bool :=
  pins.scanl specNext running0

/-- Number of iterations in which the pin reads HIGH while the tracked state
is STOPPED. -/
def startIterations (running0 : Bool) (pins : List Level) : ℕ :=
  (pins.zip (stateSeq running0 pins)).countP fun pr => pr.1 == Level.high && !pr.2

/-- Number of iterations in which the pin reads LOW while the tracked state
is RUNNING. -/
def stopIterations (running0 : Bool) (pins : List Level) : ℕ :=
  (pins.zip (stateSeq running0 pins)).countP fun pr => pr.1 == Level.low && pr.2

/-- Number of iterations in which the pin reads LOW while the tracked state
is STOPPED (the idle branch). -/
def idleIterations (running0 : Bool) (pins : List Level) : ℕ :=
  (pins.zip (stateSeq running0 pins)).countP fun pr => pr.1 == Level.low && !pr.2

/-- Number of iterations in which the pin reads HIGH while the tracked state
is RUNNING (the steady branch). -/
def steadyIterations (running0 : Bool) (pins : List Level) : ℕ :=
  (pins.zip (stateSeq running0 pins)).countP fun pr => pr.1 == Level.high && pr.2

/-- Whether a controller event is a sleep of some length other than the idle
interval (5 s) or the steady interval (0.25 s). -/
def badSleep : CEv → Bool
  | CEv.sleep q => !(q == 5 || q == 1/4)
  | _ => false

end Controller

namespace Main

/-- Relay (siren) output pin, board numbering. -/
def RELAY_PIN : ℕ := 13

/-- Indicator (LED) output pin, board numbering. -/
def LED_PIN : ℕ := 11

/-- Siren actuation duration in seconds. -/
def ALARM_DURATION : ℚ := 5

/-- Grace delay between motion detection and siren actuation, in seconds. -/
def ALARM_SNOOZE : ℚ := 1

/-- Fast flash half-period in seconds (arming indicator). -/
def FAST_FLASH_TIME : ℚ := 1/4

/-- Slow flash half-period in seconds (degraded-mode heartbeat). -/
def SLOW_FLASH_TIME : ℚ := 13/20

/-- Arm phase duration in seconds. -/
def ARM_TIME : ℚ := 30

/-- Observable events of the siren subsystem: GPIO writes, sleeps, the
`GPIO.cleanup` call, entry into `flash` (with its arguments), and consumption
of one motion event from the device stream. -/
inductive Ev
  | out (pin : ℕ) (lvl : Level)
  | sleep (q : ℚ)
  | cleanup
  | flashCall (interval : ℚ) (duration : Option ℚ)
  | readEv (v : ℤ)
deriving DecidableEq, Repr

/-- Execution state of the siren subsystem: the two output pin levels, whether
the port has been released, the idealised wall clock, the pending-interrupt
countdown (`some k`: the interrupt fires at the k-th upcoming suspension
point; `none`: no interrupt), and the event trace so far. -/
structure St where
  relay : Level
  led : Level
  released : Bool
  now : ℚ
  intr : Option ℕ
  trace : List Ev
deriving DecidableEq, Repr

/-- Initial state: both pins LOW (as configured by `set_up`), port held,
clock at 0, empty trace, given interrupt schedule. -/
def initSt (intr : Option ℕ) : St :=
  { relay := Level.low, led := Level.low, released := false, now := 0,
    intr := intr, trace := [] }

/-- Embedding of `GPIO.output(pin, lvl)` on the spec's Digital I/O Port:
record the level of the addressed pin and log the write. -/
def doOutput (pin : ℕ) (lvl : Level) (s : St) : St :=
  { s with
    relay := if pin == RELAY_PIN then lvl else s.relay,
    led := if pin == LED_PIN then lvl else s.led,
    trace := s.trace ++ [Ev.out pin lvl] }

/-- Embedding of `time.sleep(q)`, a suspension point: if the pending
interrupt is due it fires (`true`, sleep not performed) and the pending
interrupt is consumed; otherwise the clock advances by `q` and the countdown
decreases. -/
def doSleep (q : ℚ) (s : St) : St × Bool :=
  match s.intr with
  | some 0 => ({ s with intr := none }, true)
  | some (k + 1) =>
      ({ s with intr := some k, now := s.now + q,
                trace := s.trace ++ [Ev.sleep q] }, false)
  | none =>
      ({ s with now := s.now + q, trace := s.trace ++ [Ev.sleep q] }, false)

/-- Embedding of `main.clean_up`: relay LOW, indicator LOW, release the port
(the port is the spec's external Digital I/O Port, whose `write` and
`release_all` accept calls at any time, release being safe to repeat). -/
def clean_up (s : St) : St :=
  let s1 := doOutput RELAY_PIN Level.low s
  let s2 := doOutput LED_PIN Level.low s1
  { s2 with released := true, trace := s2.trace ++ [Ev.cleanup] }

/-- Loop body of `main.flash`: toggle the LED HIGH then LOW, sleeping
`interval` after each edge; with a `duration` set, stop once the elapsed
wall-clock time since `startTime` reaches it (checked after each full
toggle); a `KeyboardInterrupt` raised at either sleep is caught here, runs
`clean_up` and breaks. Result flag: `true` = the loop exited (duration
elapsed or interrupt caught), `false` = fuel ran out (still looping). -/
def flashAux (interval : ℚ) (duration : Option ℚ) (startTime : ℚ) :
    St → ℕ → St × Bool
  | s, 0 => (s, false)
  | s, fuel + 1 =>
    let s1 := doOutput LED_PIN Level.high s
    match doSleep interval s1 with
    | (s2, true) => (clean_up s2, true)
    | (s2, false) =>
      let s3 := doOutput LED_PIN Level.low s2
      match doSleep interval s3 with
      | (s4, true) => (clean_up s4, true)
      | (s4, false) =>
        match duration with
        | some d =>
            if d ≤ s4.now - startTime then (s4, true)
            else flashAux interval duration startTime s4 fuel
        | none => flashAux interval duration startTime s4 fuel

/-- Embedding of `main.flash`: record the invocation, capture `start_time`,
then run the toggle loop. -/
def flash (interval : ℚ) (duration : Option ℚ) (s : St) (fuel : ℕ) :
    St × Bool :=
  flashAux interval duration s.now
    { s with trace := s.trace ++ [Ev.flashCall interval duration] } fuel

/-- How `detect_mouse_movement` ends: `returned` = the function returned,
`raised` = a `KeyboardInterrupt` propagated out of it, `stuck` = still
blocked (fuel ran out, or blocked forever on the event read). -/
inductive DetectRes
  | returned
  | raised
  | stuck
deriving DecidableEq, Repr

/-- Embedding of the `for event in dev.read_loop()` wait: consume motion
events in order; a zero-value event is ignored, the first non-zero value
breaks the wait. The read is a suspension point: a due interrupt fires
there and propagates (no handler in `detect_mouse_movement`); with no
events left the read blocks until the interrupt, if one is pending, else
forever. -/
def readLoop : List ℤ → St → St × DetectRes
  | [], s =>
    match s.intr with
    | some _ => ({ s with intr := none }, DetectRes.raised)
    | none => (s, DetectRes.stuck)
  | v :: rest, s =>
    match s.intr with
    | some 0 => ({ s with intr := none }, DetectRes.raised)
    | _ =>
      let s1 := { s with intr := s.intr.map (· - 1),
                         trace := s.trace ++ [Ev.readEv v] }
      if v != 0 then (s1, DetectRes.returned) else readLoop rest s1

/-- Embedding of `main.detect_mouse_movement`: `dev` is `none` when opening
the device path raises `FileNotFoundError`, in which case the function logs
an error, runs `flash(SLOW_FLASH_TIME)` (no duration) and returns; otherwise
it waits on the device's event stream. -/
def detect_mouse_movement (dev : Option (List ℤ)) (s : St) (fuel : ℕ) :
    St × DetectRes :=
  match dev with
  | none =>
    let r := flash SLOW_FLASH_TIME none s fuel
    if r.2 then (r.1, DetectRes.returned) else (r.1, DetectRes.stuck)
  | some events => readLoop events s

/-- Embedding of `main.set_alarm`: sleep the snooze, relay HIGH, sleep the
alarm duration, relay LOW. No handler here: the result flag is `true` when
a `KeyboardInterrupt` fired at one of the two sleeps and propagates. -/
def set_alarm (s : St) : St × Bool :=
  match doSleep ALARM_SNOOZE s with
  | (s1, true) => (s1, true)
  | (s1, false) =>
    let s2 := doOutput RELAY_PIN Level.high s1
    match doSleep ALARM_DURATION s2 with
    | (s3, true) => (s3, true)
    | (s3, false) => (doOutput RELAY_PIN Level.low s3, false)

/-- Embedding of `main.arm`: fast flash for the arm time, then latch the
LED on. When `flash` returns (also after a swallowed interrupt) the LED is
set HIGH; `false` means the flash loop ran out of fuel. -/
def arm (s : St) (fuel : ℕ) : St × Bool :=
  let r := flash FAST_FLASH_TIME (some ARM_TIME) s fuel
  if r.2 then (doOutput LED_PIN Level.high r.1, true) else (r.1, false)

/-- Embedding of `main.monitor`: repeatedly wait for motion then trigger the
siren; a `KeyboardInterrupt` propagating out of either step is caught, runs
`clean_up` and breaks. Result flag: `true` = the loop exited through its
handler, `false` = fuel ran out (still looping) or the event wait is stuck.
The device contents are those seen by each `detect_mouse_movement` call. -/
def monitor (dev : Option (List ℤ)) : St → ℕ → St × Bool
  | s, 0 => (s, false)
  | s, fuel + 1 =>
    match detect_mouse_movement dev s (fuel + 1) with
    | (s1, DetectRes.raised) => (clean_up s1, true)
    | (s1, DetectRes.stuck) => (s1, false)
    | (s1, DetectRes.returned) =>
      match set_alarm s1 with
      | (s2, true) => (clean_up s2, true)
      | (s2, false) => monitor dev s2 fuel

/-- Number of `GPIO.cleanup` calls recorded in a trace. -/
def countCleanup (t : List Ev) : ℕ := t.count Ev.cleanup

/-- Number of LED-HIGH writes recorded in a trace: each full on/off toggle
pair of `flash` contributes exactly one. -/
def countLedOn (t : List Ev) : ℕ := t.count (Ev.out LED_PIN Level.high)

/-- Whether an event is the consumption of a motion event. -/
def isReadEv : Ev → Bool
  | Ev.readEv _ => true
  | _ => false

/-- Whether an event is a GPIO write (an actuation). -/
def isOutEv : Ev → Bool
  | Ev.out _ _ => true
  | _ => false

/-- Whether some GPIO write occurs after some `GPIO.cleanup` call in the
trace (actuation after cleanup). -/
def outAfterCleanup : List Ev → Bool
  | [] => false
  | Ev.cleanup :: rest => rest.any isOutEv || outAfterCleanup rest
  | _ :: rest => outAfterCleanup rest

/-- One full on/off toggle pair of the flash loop as executed when no
interrupt fires: LED HIGH, sleep, LED LOW, sleep. -/
def pairStep (interval : ℚ) (s : St) : St :=
  (doSleep interval (doOutput LED_PIN Level.low
    (doSleep interval (doOutput LED_PIN Level.high s)).1)).1

end Main

namespace Controller

lemma controlAux_count_start (pins : List Level) :
    ∀ (r0 : Bool) (acts : ℕ),
      (controlAux allOk pins r0 acts).1.count CEv.start =
        startIterations r0 pins := by
  induction pins with
  | nil =>
    intro r0 acts
    simp [controlAux, startIterations, stateSeq, List.count]
  | cons p rest ih =>
    intro r0 acts
    cases p <;> cases r0 <;>
      simp [controlAux, allOk, startIterations, stateSeq, List.scanl, specNext,
        List.count_cons, List.countP_cons] <;>
      simpa [startIterations, stateSeq, List.count] using ih _ _

lemma controlAux_count_stop (pins : List Level) :
    ∀ (r0 : Bool) (acts : ℕ),
      (controlAux allOk pins r0 acts).1.count CEv.stop =
        stopIterations r0 pins := by
  induction pins with
  | nil =>
    intro r0 acts
    simp [controlAux, stopIterations, stateSeq, List.count]
  | cons p rest ih =>
    intro r0 acts
    cases p <;> cases r0 <;>
      simp [controlAux, allOk, stopIterations, stateSeq, List.scanl, specNext,
        List.count_cons, List.countP_cons] <;>
      simpa [stopIterations, stateSeq, List.count] using ih _ _

end Controller

end Alarm

namespace Alarm

namespace Controller

/-- Claim C1: in the service-supervisor loop (with every service action settling as
expected), the number of `start_service` invocations equals the number of
iterations in which the pin reads HIGH while the tracked state is STOPPED,
and the number of `stop_service` invocations equals the number of iterations
in which the pin reads LOW while the tracked state is RUNNING; in particular
repeated same-level reads in the same state cause no duplicate action. -/
theorem control_action_counts (pins : List Level) (r0 : Bool) :
    (control allOk r0 pins).1.count CEv.start = startIterations r0 pins ∧
    (control allOk r0 pins).1.count CEv.stop = stopIterations r0 pins :=
  ⟨controlAux_count_start pins r0 0, controlAux_count_stop pins r0 0⟩

lemma five_ne_quarter : (5 : ℚ) ≠ 4⁻¹ := by norm_num

lemma quarter_ne_five : (4⁻¹ : ℚ) ≠ 5 := by norm_num

lemma controlAux_count_sleep5 (pins : List Level) :
    ∀ (r0 : Bool) (acts : ℕ),
      (controlAux allOk pins r0 acts).1.count (CEv.sleep 5) =
        idleIterations r0 pins := by
  induction pins with
  | nil =>
    intro r0 acts
    simp [controlAux, idleIterations, stateSeq, List.count]
  | cons p rest ih =>
    intro r0 acts
    cases p <;> cases r0 <;>
      simp [controlAux, allOk, idleIterations, stateSeq, List.scanl, specNext,
        List.count_cons, List.countP_cons, five_ne_quarter, quarter_ne_five] <;>
      simpa [idleIterations, stateSeq, List.count] using ih _ _

lemma controlAux_count_quarter (pins : List Level) :
    ∀ (r0 : Bool) (acts : ℕ),
      (controlAux allOk pins r0 acts).1.count (CEv.sleep (1/4)) =
        steadyIterations r0 pins := by
  induction pins with
  | nil =>
    intro r0 acts
    simp [controlAux, steadyIterations, stateSeq, List.count]
  | cons p rest ih =>
    intro r0 acts
    cases p <;> cases r0 <;>
      simp [controlAux, allOk, steadyIterations, stateSeq, List.scanl, specNext,
        List.count_cons, List.countP_cons, five_ne_quarter, quarter_ne_five] <;>
      simpa [steadyIterations, stateSeq, List.count] using ih _ _

lemma controlAux_no_bad_sleep (pins : List Level) :
    ∀ (r0 : Bool) (acts : ℕ),
      (controlAux allOk pins r0 acts).1.countP badSleep = 0 := by
  induction pins with
  | nil =>
    intro r0 acts
    simp [controlAux, badSleep]
  | cons p rest ih =>
    intro r0 acts
    cases p <;> cases r0 <;>
      simp [controlAux, allOk, List.countP_cons, badSleep, ih]

/-- Claim C9: in the service-supervisor loop (with every service action
settling as expected), the number of 5-second sleeps equals the number of
iterations with the pin LOW in tracked state STOPPED, the number of
0.25-second sleeps equals the number of iterations with the pin HIGH in
tracked state RUNNING, and no sleep of any other length occurs — so no other
branch sleeps. -/
theorem control_sleep_intervals (pins : List Level) (r0 : Bool) :
    (control allOk r0 pins).1.count (CEv.sleep 5) = idleIterations r0 pins ∧
    (control allOk r0 pins).1.count (CEv.sleep (1/4)) =
      steadyIterations r0 pins ∧
    (control allOk r0 pins).1.countP badSleep = 0 :=
  ⟨controlAux_count_sleep5 pins r0 0, controlAux_count_quarter pins r0 0,
    controlAux_no_bad_sleep pins r0 0⟩

lemma cons_keeps_assertFailed (e : CEv) (he : e ≠ CEv.cleanup)
    (t1 : List CEv) (r : Bool) (hmem : CEv.cleanup ∉ t1)
    (hlast : t1.getLast? = some (if r then CEv.stop else CEv.start)) :
    CEv.cleanup ∉ (e :: t1) ∧
      (e :: t1).getLast? = some (if r then CEv.stop else CEv.start) := by
  refine ⟨?_, ?_⟩
  · intro hmem'
    rcases List.mem_cons.mp hmem' with h | h
    · exact he h.symm
    · exact hmem h
  · cases t1 with
    | nil => simp at hlast
    | cons a l => rw [List.getLast?_cons_cons]; exact hlast

lemma controlAux_assertFailed (pins : List Level) :
    ∀ (r0 : Bool) (acts : ℕ) (ok : ℕ → Bool) (t : List CEv) (r : Bool),
      controlAux ok pins r0 acts = (t, CRes.assertFailed r) →
      CEv.cleanup ∉ t ∧
        t.getLast? = some (if r then CEv.stop else CEv.start) := by
  induction pins with
  | nil =>
    intro r0 acts ok t r h
    simp [controlAux] at h
  | cons p rest ih =>
    intro r0 acts ok t r h
    cases p <;> cases r0
    case low.false =>
      rw [show controlAux ok (Level.low :: rest) false acts =
          (CEv.sleep 5 :: (controlAux ok rest false acts).1,
            (controlAux ok rest false acts).2) from rfl] at h
      have h1 := congrArg Prod.fst h
      have h2 := congrArg Prod.snd h
      simp only at h1 h2
      obtain ⟨hmem, hlast⟩ := ih false acts ok _ r (by rw [← h2])
      rw [← h1]
      exact cons_keeps_assertFailed _ (by simp) _ r hmem hlast
    case low.true =>
      by_cases hok : ok acts = true
      · rw [show controlAux ok (Level.low :: rest) true acts =
            (CEv.stop :: (controlAux ok rest false (acts + 1)).1,
              (controlAux ok rest false (acts + 1)).2) from by
            simp [controlAux, hok]] at h
        have h1 := congrArg Prod.fst h
        have h2 := congrArg Prod.snd h
        simp only at h1 h2
        obtain ⟨hmem, hlast⟩ := ih false (acts + 1) ok _ r (by rw [← h2])
        rw [← h1]
        exact cons_keeps_assertFailed _ (by simp) _ r hmem hlast
      · rw [show controlAux ok (Level.low :: rest) true acts =
            ([CEv.stop], CRes.assertFailed true) from by
            simp [controlAux, hok]] at h
        have h1 := congrArg Prod.fst h
        have h2 := congrArg Prod.snd h
        simp only [Prod.fst, Prod.snd, CRes.assertFailed.injEq] at h1 h2
        rw [← h1, ← h2]
        simp
    case high.false =>
      by_cases hok : ok acts = true
      · rw [show controlAux ok (Level.high :: rest) false acts =
            (CEv.start :: (controlAux ok rest true (acts + 1)).1,
              (controlAux ok rest true (acts + 1)).2) from by
            simp [controlAux, hok]] at h
        have h1 := congrArg Prod.fst h
        have h2 := congrArg Prod.snd h
        simp only at h1 h2
        obtain ⟨hmem, hlast⟩ := ih true (acts + 1) ok _ r (by rw [← h2])
        rw [← h1]
        exact cons_keeps_assertFailed _ (by simp) _ r hmem hlast
      · rw [show controlAux ok (Level.high :: rest) false acts =
            ([CEv.start], CRes.assertFailed false) from by
            simp [controlAux, hok]] at h
        have h1 := congrArg Prod.fst h
        have h2 := congrArg Prod.snd h
        simp only [Prod.fst, Prod.snd, CRes.assertFailed.injEq] at h1 h2
        rw [← h1, ← h2]
        simp
    case high.true =>
      rw [show controlAux ok (Level.high :: rest) true acts =
          (CEv.sleep (1/4) :: (controlAux ok rest true acts).1,
            (controlAux ok rest true acts).2) from rfl] at h
      have h1 := congrArg Prod.fst h
      have h2 := congrArg Prod.snd h
      simp only at h1 h2
      obtain ⟨hmem, hlast⟩ := ih true acts ok _ r (by rw [← h2])
      rw [← h1]
      exact cons_keeps_assertFailed _ (by simp) _ r hmem hlast

/-- Claim C10: when a service action's assertion fails inside the
service-supervisor loop, the `AssertionError` propagates out of the loop
without any `clean_up` call, the trace ends at the failed action, and the
tracked state delivered with the propagated error is the value from before
the failed action (STOPPED when a start failed, RUNNING when a stop
failed) — the state is only updated after the action returns. -/
theorem control_assert_propagation (pins : List Level) (r0 : Bool)
    (ok : ℕ → Bool) (t : List CEv) (r : Bool)
    (h : control ok r0 pins = (t, CRes.assertFailed r)) :
    CEv.cleanup ∉ t ∧ t.getLast? = some (if r then CEv.stop else CEv.start) :=
  controlAux_assertFailed pins r0 0 ok t r h

/-- Witness for `control_assert_propagation`: a single HIGH reading in state
STOPPED with a failing adapter. -/
theorem control_assert_propagation_w :
    CEv.cleanup ∉ [CEv.start] ∧
      [CEv.start].getLast? = some (if false then CEv.stop else CEv.start) :=
  control_assert_propagation [Level.high] false (fun _ => false)
    [CEv.start] false rfl

/-- Claim C3: `start_service` issues the restart command, sleeps exactly the
1-second settle interval, then queries the status once; it raises
(`AssertionError`) iff the adapter does not report the service running, and
the command is issued exactly once (no retry). Symmetrically `stop_service`
raises iff the adapter still reports the service running. -/
theorem start_stop_service_contract (raw : ℕ) :
    (start_service raw).1 = [SEv.restartCmd, SEv.sleep 1, SEv.statusCmd] ∧
    ((start_service raw).2 = true ↔ ¬ alarm_service_running raw = true) ∧
    (start_service raw).1.count SEv.restartCmd = 1 ∧
    (stop_service raw).1 = [SEv.stopCmd, SEv.sleep 1, SEv.statusCmd] ∧
    ((stop_service raw).2 = true ↔ alarm_service_running raw = true) ∧
    (stop_service raw).1.count SEv.stopCmd = 1 := by
  cases h : alarm_service_running raw <;>
    simp [start_service, stop_service, h]

/-- Claim C5: `alarm_service_running` is true exactly when the exit code of
the status command (the high byte of the raw wait status, which the source
extracts with `>> 8`) is zero. -/
theorem alarm_service_running_iff (raw : ℕ) :
    alarm_service_running raw = true ↔ service_status_exit_code raw = 0 := by
  simp [alarm_service_running, service_status_exit_code]

end Controller

namespace Main

lemma clean_up_spec (s : St) :
    (clean_up s).relay = Level.low ∧ (clean_up s).led = Level.low ∧
    (clean_up s).released = true ∧ (clean_up s).intr = s.intr ∧
    (clean_up s).now = s.now ∧
    (clean_up s).trace = s.trace ++
      [Ev.out RELAY_PIN Level.low, Ev.out LED_PIN Level.low, Ev.cleanup] := by
  simp [clean_up, doOutput, RELAY_PIN, LED_PIN]

lemma countCleanup_append (t1 t2 : List Ev) :
    countCleanup (t1 ++ t2) = countCleanup t1 + countCleanup t2 := by
  simp [countCleanup, List.count_append]

lemma countCleanup_clean_up (s : St) :
    countCleanup (clean_up s).trace = countCleanup s.trace + 1 := by
  rw [(clean_up_spec s).2.2.2.2.2, countCleanup_append]
  simp [countCleanup, RELAY_PIN, LED_PIN]

/-- Claim C8: the siren loop's cleanup routine is idempotent — a second
invocation leaves the same final pin and port state as the first (relay LOW,
indicator LOW, port released); in this model of the spec's Digital I/O Port
(writes always accepted, release safe to repeat) the second invocation is a
total function, i.e. it cannot fault. -/
theorem clean_up_idempotent (s : St) :
    (clean_up (clean_up s)).relay = (clean_up s).relay ∧
    (clean_up (clean_up s)).led = (clean_up s).led ∧
    (clean_up (clean_up s)).released = (clean_up s).released ∧
    (clean_up s).relay = Level.low ∧ (clean_up s).led = Level.low ∧
    (clean_up s).released = true := by
  simp [clean_up, doOutput, RELAY_PIN, LED_PIN]

lemma readLoop_first_nonzero (events : List ℤ) :
    ∀ s : St, s.intr = none → events.any (fun v => v != 0) = true →
      readLoop events s =
        ({ s with trace := s.trace ++
            (events.take (events.findIdx (fun v => v != 0) + 1)).map Ev.readEv },
          DetectRes.returned) := by
  induction events with
  | nil =>
    intro s h hany
    simp at hany
  | cons v rest ih =>
    intro s h hany
    by_cases hv : (v != 0) = true
    · simp [readLoop, h, hv, List.findIdx_cons]
    · have hv0 : v = 0 := by simpa using hv
      subst hv0
      have hrest : rest.any (fun v => v != 0) = true := by simpa using hany
      have hstep : readLoop (0 :: rest) s =
          readLoop rest
            { s with intr := s.intr.map (· - 1)
                     trace := s.trace ++ [Ev.readEv 0] } := by
        simp [readLoop, h]
      rw [hstep, ih _ (by simp [h]) hrest]
      simp [h, List.findIdx_cons, List.take_succ_cons]

/-- Claim C7: when the device is present, the wait-for-motion step consumes
motion events in order, ignores every zero-valued event, and returns exactly
at the first event with a non-zero value: the trace records precisely the
reads up to and including that first non-zero event, and nothing else
changes. -/
theorem detect_first_nonzero (events : List ℤ) (fuel : ℕ)
    (h : events.any (fun v => v != 0) = true) :
    detect_mouse_movement (some events) (initSt none) fuel =
      ({ initSt none with trace :=
          (events.take (events.findIdx (fun v => v != 0) + 1)).map Ev.readEv },
        DetectRes.returned) := by
  rw [show detect_mouse_movement (some events) (initSt none) fuel =
      readLoop events (initSt none) from rfl]
  rw [readLoop_first_nonzero events (initSt none) rfl h]
  simp [initSt]

/-- Witness for `detect_first_nonzero`: one zero event then the value 3. -/
theorem detect_first_nonzero_w :
    ([(0 : ℤ), 3].any (fun v => v != 0) = true) ∧
    detect_mouse_movement (some [(0 : ℤ), 3]) (initSt none) 0 =
      ({ initSt none with trace :=
          (([(0 : ℤ), 3].take ([(0 : ℤ), 3].findIdx (fun v => v != 0) + 1)).map
            Ev.readEv) },
        DetectRes.returned) :=
  ⟨by decide, detect_first_nonzero [0, 3] 0 (by decide)⟩

lemma pairStep_fields (I : ℚ) (s : St) (h : s.intr = none) :
    (pairStep I s).intr = none ∧ (pairStep I s).now = s.now + I + I ∧
    (pairStep I s).trace = s.trace ++
      [Ev.out LED_PIN Level.high, Ev.sleep I, Ev.out LED_PIN Level.low,
        Ev.sleep I] := by
  simp [pairStep, doSleep, doOutput, h]

lemma pairStep_fields_intr (I : ℚ) (s : St) (k : ℕ)
    (h : s.intr = some (k + 1 + 1)) :
    (pairStep I s).intr = some k ∧ (pairStep I s).now = s.now + I + I ∧
    (pairStep I s).trace = s.trace ++
      [Ev.out LED_PIN Level.high, Ev.sleep I, Ev.out LED_PIN Level.low,
        Ev.sleep I] := by
  simp [pairStep, doSleep, doOutput, h]

lemma countLedOn_append (t1 t2 : List Ev) :
    countLedOn (t1 ++ t2) = countLedOn t1 + countLedOn t2 := by
  simp [countLedOn, List.count_append]

lemma countLedOn_pair_events (I : ℚ) :
    countLedOn [Ev.out LED_PIN Level.high, Ev.sleep I, Ev.out LED_PIN Level.low,
      Ev.sleep I] = 1 := by
  simp [countLedOn, List.count_cons]

lemma countCleanup_pair_events (I : ℚ) :
    countCleanup [Ev.out LED_PIN Level.high, Ev.sleep I,
      Ev.out LED_PIN Level.low, Ev.sleep I] = 0 := by
  simp [countCleanup, List.count_cons]

lemma pairStep_iter (I : ℚ) :
    ∀ (m : ℕ) (s : St), s.intr = none →
      ((pairStep I)^[m] s).intr = none ∧
      ((pairStep I)^[m] s).now = s.now + (I + I) * m ∧
      countLedOn ((pairStep I)^[m] s).trace = countLedOn s.trace + m ∧
      countCleanup ((pairStep I)^[m] s).trace = countCleanup s.trace := by
  intro m
  induction m with
  | zero =>
    intro s h
    simpa using h
  | succ n ih =>
    intro s h
    rw [Function.iterate_succ_apply]
    obtain ⟨hf1, hf2, hf3⟩ := pairStep_fields I s h
    obtain ⟨h1, h2, h3, h4⟩ := ih (pairStep I s) hf1
    refine ⟨h1, ?_, ?_, ?_⟩
    · rw [h2, hf2]
      push_cast
      ring
    · rw [h3, hf3, countLedOn_append, countLedOn_pair_events]
      omega
    · rw [h4, hf3, countCleanup_append, countCleanup_pair_events]
      omega

lemma flashAux_step_none (I d t0 : ℚ) (s : St) (h : s.intr = none) (fuel : ℕ) :
    flashAux I (some d) t0 s (fuel + 1) =
      if d ≤ (pairStep I s).now - t0 then (pairStep I s, true)
      else flashAux I (some d) t0 (pairStep I s) fuel := by
  simp [flashAux, pairStep, doSleep, doOutput, h]

lemma flashAux_none_step (I t0 : ℚ) (s : St) (h : s.intr = none) (fuel : ℕ) :
    flashAux I none t0 s (fuel + 1) = flashAux I none t0 (pairStep I s) fuel := by
  simp [flashAux, pairStep, doSleep, doOutput, h]

lemma flashAux_raise0 (I : ℚ) (d : Option ℚ) (t0 : ℚ) (s : St)
    (h : s.intr = some 0) (fuel : ℕ) :
    flashAux I d t0 s (fuel + 1) =
      (clean_up { doOutput LED_PIN Level.high s with intr := none }, true) := by
  simp [flashAux, doOutput, doSleep, h]

lemma flashAux_raise1 (I : ℚ) (d : Option ℚ) (t0 : ℚ) (s : St)
    (h : s.intr = some 1) (fuel : ℕ) :
    flashAux I d t0 s (fuel + 1) =
      (clean_up
        { doOutput LED_PIN Level.low
            ((doSleep I (doOutput LED_PIN Level.high s)).1) with intr := none },
        true) := by
  simp [flashAux, doOutput, doSleep, h]

lemma flashAux_none_skip2 (I t0 : ℚ) (s : St) (k : ℕ)
    (h : s.intr = some (k + 1 + 1)) (fuel : ℕ) :
    flashAux I none t0 s (fuel + 1) =
      flashAux I none t0 (pairStep I s) fuel := by
  simp [flashAux, pairStep, doOutput, doSleep, h]

lemma countCleanup_doOutput (p : ℕ) (l : Level) (s : St) :
    countCleanup (doOutput p l s).trace = countCleanup s.trace := by
  simp [doOutput, countCleanup_append, countCleanup, List.count_cons]

lemma countCleanup_doSleep (q : ℚ) (s : St) :
    countCleanup (doSleep q s).1.trace = countCleanup s.trace := by
  rcases hi : s.intr with _ | k
  · simp [doSleep, hi, countCleanup_append, countCleanup, List.count_cons]
  · cases k <;>
      simp [doSleep, hi, countCleanup_append, countCleanup, List.count_cons]

lemma flashAux_some_terminates (I d t0 : ℚ) :
    ∀ (fuel : ℕ) (s : St), 1 ≤ fuel → s.intr = none →
      d + t0 ≤ s.now + (I + I) * fuel →
      ∃ m : ℕ, 1 ≤ m ∧
        flashAux I (some d) t0 s fuel = ((pairStep I)^[m] s, true) ∧
        d + t0 ≤ s.now + (I + I) * m ∧
        (m = 1 ∨ ¬ d + t0 ≤ s.now + (I + I) * ((m - 1 : ℕ) : ℚ)) := by
  intro fuel
  induction fuel with
  | zero =>
    intro s h0 _ _
    omega
  | succ k ih =>
    intro s _ h hle
    rw [flashAux_step_none I d t0 s h k]
    obtain ⟨hf1, hf2, hf3⟩ := pairStep_fields I s h
    by_cases hc : d ≤ (pairStep I s).now - t0
    · rw [if_pos hc]
      refine ⟨1, le_refl 1, rfl, ?_, Or.inl rfl⟩
      rw [hf2] at hc
      push_cast
      linarith
    · rw [if_neg hc]
      cases k with
      | zero =>
        exfalso
        apply hc
        rw [hf2]
        push_cast at hle
        linarith
      | succ n =>
        have hpre : d + t0 ≤ (pairStep I s).now + (I + I) * (n + 1 : ℕ) := by
          rw [hf2]
          push_cast at hle ⊢
          linarith
        obtain ⟨m', hm1, heq, hbound, hmin⟩ :=
          ih (pairStep I s) (by omega) hf1 hpre
        refine ⟨m' + 1, by omega, ?_, ?_, ?_⟩
        · rw [heq, ← Function.iterate_succ_apply]
        · rw [hf2] at hbound
          push_cast at hbound ⊢
          linarith
        · right
          rcases hmin with rfl | hmin2
          · intro hx
            apply hc
            rw [hf2]
            push_cast at hx
            linarith
          · intro hx
            apply hmin2
            rw [hf2]
            have hcast : ((m' - 1 : ℕ) : ℚ) = (m' : ℚ) - 1 := by
              push_cast [hm1]
              ring
            rw [hcast]
            have hcast2 : ((m' + 1 - 1 : ℕ) : ℚ) = (m' : ℚ) := by
              push_cast
              ring
            rw [hcast2] at hx
            linarith

lemma flashAux_none_no_intr (I t0 : ℚ) :
    ∀ (fuel : ℕ) (s : St), s.intr = none →
      (flashAux I none t0 s fuel).2 = false ∧
      (flashAux I none t0 s fuel).1.intr = none := by
  intro fuel
  induction fuel with
  | zero =>
    intro s h
    exact ⟨rfl, h⟩
  | succ k ih =>
    intro s h
    rw [flashAux_none_step I t0 s h k]
    exact ih (pairStep I s) (pairStep_fields I s h).1

lemma flashAux_intr_terminates (I t0 : ℚ) :
    ∀ (fuel k : ℕ) (s : St), s.intr = some k → k < 2 * fuel →
      (flashAux I none t0 s fuel).2 = true ∧
      countCleanup (flashAux I none t0 s fuel).1.trace =
        countCleanup s.trace + 1 ∧
      (flashAux I none t0 s fuel).1.intr = none := by
  intro fuel
  induction fuel with
  | zero =>
    intro k s _ hk
    omega
  | succ n ih =>
    intro k s h hk
    rcases k with _ | (_ | k2)
    · rw [flashAux_raise0 I none t0 s h n]
      refine ⟨rfl, ?_, ?_⟩
      · rw [countCleanup_clean_up]
        have : countCleanup
            (St.trace { doOutput LED_PIN Level.high s with intr := none }) =
            countCleanup s.trace := countCleanup_doOutput _ _ s
        rw [this]
      · simp [clean_up, doOutput]
    · rw [flashAux_raise1 I none t0 s h n]
      refine ⟨rfl, ?_, ?_⟩
      · rw [countCleanup_clean_up]
        have h1 : countCleanup
            (St.trace { doOutput LED_PIN Level.low
              ((doSleep I (doOutput LED_PIN Level.high s)).1) with
                intr := none }) =
            countCleanup s.trace := by
          rw [show St.trace { doOutput LED_PIN Level.low
              ((doSleep I (doOutput LED_PIN Level.high s)).1) with
                intr := none } =
            (doOutput LED_PIN Level.low
              ((doSleep I (doOutput LED_PIN Level.high s)).1)).trace from rfl]
          rw [countCleanup_doOutput, countCleanup_doSleep, countCleanup_doOutput]
        rw [h1]
      · simp [clean_up, doOutput]
    · rw [flashAux_none_skip2 I t0 s k2 h n]
      obtain ⟨hp1, _, hp3⟩ := pairStep_fields_intr I s k2 h
      obtain ⟨h1, h2, h3⟩ := ih k2 (pairStep I s) hp1 (by omega)
      refine ⟨h1, ?_, h3⟩
      rw [h2, hp3, countCleanup_append, countCleanup_pair_events]

lemma flashAux_none_trace_ext (I t0 : ℚ) :
    ∀ (fuel : ℕ) (s : St), ∃ t : List Ev,
      (flashAux I none t0 s fuel).1.trace = s.trace ++ t ∧
      t.countP isReadEv = 0 := by
  intro fuel
  induction fuel with
  | zero =>
    intro s
    exact ⟨[], by rw [List.append_nil]; rfl, rfl⟩
  | succ n ih =>
    intro s
    rcases hi : s.intr with _ | (_ | (_ | k2))
    · rw [flashAux_none_step I t0 s hi n]
      obtain ⟨t, ht, hr⟩ := ih (pairStep I s)
      refine ⟨[Ev.out LED_PIN Level.high, Ev.sleep I, Ev.out LED_PIN Level.low,
        Ev.sleep I] ++ t, ?_, ?_⟩
      · rw [ht, (pairStep_fields I s hi).2.2, List.append_assoc]
      · simp [List.countP_append, isReadEv] at hr ⊢
        exact hr
    · rw [flashAux_raise0 I none t0 s hi n]
      refine ⟨[Ev.out LED_PIN Level.high, Ev.out RELAY_PIN Level.low,
        Ev.out LED_PIN Level.low, Ev.cleanup], ?_, ?_⟩
      · simp [clean_up, doOutput]
      · simp [isReadEv]
    · rw [flashAux_raise1 I none t0 s hi n]
      refine ⟨[Ev.out LED_PIN Level.high, Ev.sleep I, Ev.out LED_PIN Level.low,
        Ev.out RELAY_PIN Level.low, Ev.out LED_PIN Level.low, Ev.cleanup],
        ?_, ?_⟩
      · simp [clean_up, doOutput, doSleep, hi]
      · simp [isReadEv]
    · rw [flashAux_none_skip2 I t0 s k2 hi n]
      obtain ⟨t, ht, hr⟩ := ih (pairStep I s)
      refine ⟨[Ev.out LED_PIN Level.high, Ev.sleep I, Ev.out LED_PIN Level.low,
        Ev.sleep I] ++ t, ?_, ?_⟩
      · rw [ht, (pairStep_fields_intr I s k2 hi).2.2, List.append_assoc]
      · simp [List.countP_append, isReadEv] at hr ⊢
        exact hr

/-- Claim C4: for `flash interval duration` with a duration set, the number
of full on/off toggle pairs (counted as LED-HIGH writes) is `⌊D / (2·I)⌋`
within a tolerance of one extra pair; with no duration the loop never
terminates on its own (for every fuel it is still looping); and when an
interrupt fires during the un-timed flash, `flash` returns and invokes
`clean_up` exactly once. -/
theorem flash_contract (I d : ℚ) (hI : 0 < I) (hd : 0 ≤ d) :
    (∃ (fuel m : ℕ) (s' : St),
        flash I (some d) (initSt none) fuel = (s', true) ∧
        countLedOn s'.trace = m ∧
        ⌊d / (2 * I)⌋ ≤ (m : ℤ) ∧ (m : ℤ) ≤ ⌊d / (2 * I)⌋ + 1) ∧
    (∀ fuel, (flash I none (initSt none) fuel).2 = false) ∧
    (∀ k : ℕ,
        (flash I none (initSt (some k)) (k + 1)).2 = true ∧
        countCleanup (flash I none (initSt (some k)) (k + 1)).1.trace = 1) := by
  have h2I : (0 : ℚ) < I + I := by linarith
  refine ⟨?_, ?_, ?_⟩
  · have hFc : d / (I + I) ≤ (((⌈d / (I + I)⌉.toNat + 1 : ℕ) : ℚ)) := by
      have h1 : d / (I + I) ≤ (⌈d / (I + I)⌉ : ℚ) := Int.le_ceil _
      have h2 : (⌈d / (I + I)⌉ : ℚ) ≤ ((⌈d / (I + I)⌉.toNat : ℕ) : ℚ) := by
        exact_mod_cast Int.self_le_toNat _
      push_cast at h2 ⊢
      linarith
    have hdle : d ≤ (I + I) * ((⌈d / (I + I)⌉.toNat + 1 : ℕ) : ℚ) := by
      rw [div_le_iff₀ h2I] at hFc
      linarith
    obtain ⟨m, hm1, heq, hbound, hmin⟩ :=
      flashAux_some_terminates I d 0 (⌈d / (I + I)⌉.toNat + 1)
        { initSt none with trace := [Ev.flashCall I (some d)] }
        (by omega) rfl (by simpa [initSt] using hdle)
    have hLed := (pairStep_iter I m
      { initSt none with trace := [Ev.flashCall I (some d)] } rfl).2.2.1
    refine ⟨⌈d / (I + I)⌉.toNat + 1, m, _, heq, ?_, ?_, ?_⟩
    · rw [hLed]
      have h0 : countLedOn [Ev.flashCall I (some d)] = 0 := by
        simp [countLedOn, List.count_cons]
      rw [show countLedOn
          (St.trace { initSt none with trace := [Ev.flashCall I (some d)] }) =
          countLedOn [Ev.flashCall I (some d)] from rfl, h0]
      omega
    · have hb : d ≤ (I + I) * (m : ℚ) := by
        have hb0 := hbound
        simp [initSt] at hb0
        linarith
      have hq : d / (2 * I) ≤ (m : ℚ) := by
        rw [div_le_iff₀ (by linarith : (0 : ℚ) < 2 * I)]
        ring_nf
        ring_nf at hb
        linarith
      calc ⌊d / (2 * I)⌋ ≤ ⌊((m : ℕ) : ℚ)⌋ := Int.floor_le_floor hq
        _ = (m : ℤ) := Int.floor_natCast m
    · rcases hmin with rfl | hmin2
      · have hnn : (0 : ℚ) ≤ d / (2 * I) := div_nonneg hd (by linarith)
        have h0f : 0 ≤ ⌊d / (2 * I)⌋ := Int.floor_nonneg.mpr hnn
        omega
      · have hlt : (I + I) * ((m : ℚ) - 1) < d := by
          push_neg at hmin2
          have hcast : ((m - 1 : ℕ) : ℚ) = (m : ℚ) - 1 := by
            push_cast [hm1]
            ring
          rw [hcast] at hmin2
          simpa [initSt] using hmin2
        have hq : ((m : ℚ) - 1) < d / (2 * I) := by
          rw [lt_div_iff₀ (by linarith : (0 : ℚ) < 2 * I)]
          ring_nf
          ring_nf at hlt
          linarith
        have hle : ((m : ℤ) - 1) ≤ ⌊d / (2 * I)⌋ := by
          apply Int.le_floor.mpr
          push_cast
          linarith
        omega
  · intro fuel
    exact (flashAux_none_no_intr I 0 fuel
      { initSt none with trace := [Ev.flashCall I none] } rfl).1
  · intro k
    have hterm := flashAux_intr_terminates I 0 (k + 1) k
      { initSt (some k) with trace := [Ev.flashCall I none] } rfl (by omega)
    refine ⟨hterm.1, ?_⟩
    rw [show countCleanup
        (flash I none (initSt (some k)) (k + 1)).1.trace =
        countCleanup (flashAux I none 0
          { initSt (some k) with trace := [Ev.flashCall I none] }
          (k + 1)).1.trace from rfl, hterm.2.1]
    simp [countCleanup, List.count_cons]

/-- Witness for `flash_contract`: the fast flash interval 0.25 s with a
2-second duration. -/
theorem flash_contract_w :
    ((0 : ℚ) < 1/4) ∧ ((0 : ℚ) ≤ 2) ∧
    ((∃ (fuel m : ℕ) (s' : St),
        flash (1/4) (some 2) (initSt none) fuel = (s', true) ∧
        countLedOn s'.trace = m ∧
        ⌊(2 : ℚ) / (2 * (1/4))⌋ ≤ (m : ℤ) ∧
        (m : ℤ) ≤ ⌊(2 : ℚ) / (2 * (1/4))⌋ + 1) ∧
    (∀ fuel, (flash (1/4) none (initSt none) fuel).2 = false) ∧
    (∀ k : ℕ,
        (flash (1/4) none (initSt (some k)) (k + 1)).2 = true ∧
        countCleanup
          (flash (1/4) none (initSt (some k)) (k + 1)).1.trace = 1)) :=
  ⟨by norm_num, by norm_num, flash_contract (1/4) 2 (by norm_num) (by norm_num)⟩

/-- Claim C6: when the motion-sensor device path is absent at open time,
`detect_mouse_movement` does not crash: it invokes `flash` with the slow
interval and no duration, never consumes a motion event, and returns (here:
once the pending interrupt has fired inside the flash loop, which also runs
`clean_up` exactly once). -/
theorem detect_absent_device (k : ℕ) :
    ∃ s', detect_mouse_movement none (initSt (some k)) (k + 1) =
        (s', DetectRes.returned) ∧
      Ev.flashCall SLOW_FLASH_TIME none ∈ s'.trace ∧
      s'.trace.countP isReadEv = 0 ∧
      countCleanup s'.trace = 1 := by
  have hterm := flashAux_intr_terminates SLOW_FLASH_TIME 0 (k + 1) k
    { initSt (some k) with trace := [Ev.flashCall SLOW_FLASH_TIME none] }
    rfl (by omega)
  obtain ⟨t, ht, hr⟩ := flashAux_none_trace_ext SLOW_FLASH_TIME 0 (k + 1)
    { initSt (some k) with trace := [Ev.flashCall SLOW_FLASH_TIME none] }
  have hflash2 : (flash SLOW_FLASH_TIME none (initSt (some k)) (k + 1)).2 =
      true := hterm.1
  have hdet : detect_mouse_movement none (initSt (some k)) (k + 1) =
      ((flash SLOW_FLASH_TIME none (initSt (some k)) (k + 1)).1,
        DetectRes.returned) := by
    simp [detect_mouse_movement, hflash2]
  have htr : (flash SLOW_FLASH_TIME none (initSt (some k)) (k + 1)).1.trace =
      [Ev.flashCall SLOW_FLASH_TIME none] ++ t := ht
  refine ⟨_, hdet, ?_, ?_, ?_⟩
  · rw [htr]
    exact List.mem_append_left _ (List.mem_singleton.mpr rfl)
  · rw [htr, List.countP_append, hr]
    simp [List.countP_cons, isReadEv]
  · rw [show countCleanup
        (flash SLOW_FLASH_TIME none (initSt (some k)) (k + 1)).1.trace =
        countCleanup (flashAux SLOW_FLASH_TIME none 0
          { initSt (some k) with trace := [Ev.flashCall SLOW_FLASH_TIME none] }
          (k + 1)).1.trace from rfl, hterm.2.1]
    simp [countCleanup, List.count_cons]

lemma set_alarm_no_intr (s : St) (h : s.intr = none) :
    (set_alarm s).2 = false ∧ (set_alarm s).1.intr = none ∧
    countCleanup (set_alarm s).1.trace = countCleanup s.trace := by
  simp [set_alarm, doSleep, doOutput, h, countCleanup, List.count_append,
    List.count_cons]

lemma set_alarm_cleanup_count (s : St) :
    countCleanup (set_alarm s).1.trace = countCleanup s.trace := by
  rcases hi : s.intr with _ | (_ | (_ | k)) <;>
    simp [set_alarm, doSleep, doOutput, hi, countCleanup, List.count_append,
      List.count_cons]

lemma readLoop_cleanup_count :
    ∀ (evs : List ℤ) (s : St),
      countCleanup (readLoop evs s).1.trace = countCleanup s.trace := by
  intro evs
  induction evs with
  | nil =>
    intro s
    rcases hi : s.intr with _ | k <;> simp [readLoop, hi]
  | cons v rest ih =>
    intro s
    rcases hi : s.intr with _ | (_ | k1)
    · by_cases hv : (v != 0) = true
      · simp [readLoop, hi, hv, countCleanup, List.count_append,
          List.count_cons]
      · have hstep : readLoop (v :: rest) s =
            readLoop rest
              { s with intr := s.intr.map (· - 1)
                       trace := s.trace ++ [Ev.readEv v] } := by
          simp [readLoop, hi, hv]
        rw [hstep, ih]
        simp [countCleanup, List.count_append, List.count_cons]
    · simp [readLoop, hi]
    · by_cases hv : (v != 0) = true
      · simp [readLoop, hi, hv, countCleanup, List.count_append,
          List.count_cons]
      · have hstep : readLoop (v :: rest) s =
            readLoop rest
              { s with intr := s.intr.map (· - 1)
                       trace := s.trace ++ [Ev.readEv v] } := by
          simp [readLoop, hi, hv]
        rw [hstep, ih]
        simp [countCleanup, List.count_append, List.count_cons]

lemma readLoop_none_not_raised :
    ∀ (evs : List ℤ) (s : St), s.intr = none →
      (readLoop evs s).2 ≠ DetectRes.raised ∧
      (readLoop evs s).1.intr = none := by
  intro evs
  induction evs with
  | nil =>
    intro s h
    simp [readLoop, h]
  | cons v rest ih =>
    intro s h
    by_cases hv : (v != 0) = true
    · simp [readLoop, h, hv]
    · have hstep : readLoop (v :: rest) s =
          readLoop rest
            { s with intr := s.intr.map (· - 1)
                     trace := s.trace ++ [Ev.readEv v] } := by
        simp [readLoop, h, hv]
      rw [hstep]
      exact ih _ (by simp [h])

lemma flashAux_none_true_intr (I t0 : ℚ) :
    ∀ (fuel : ℕ) (s : St), (flashAux I none t0 s fuel).2 = true →
      (flashAux I none t0 s fuel).1.intr = none := by
  intro fuel
  induction fuel with
  | zero =>
    intro s h
    simp [flashAux] at h
  | succ n ih =>
    intro s h
    rcases hi : s.intr with _ | (_ | (_ | k2))
    · rw [flashAux_none_step I t0 s hi n] at h ⊢
      exact ih _ h
    · rw [flashAux_raise0 I none t0 s hi n]
      simp [clean_up, doOutput]
    · rw [flashAux_raise1 I none t0 s hi n]
      simp [clean_up, doOutput]
    · rw [flashAux_none_skip2 I t0 s k2 hi n] at h ⊢
      exact ih _ h

lemma monitor_no_intr (dev : Option (List ℤ)) :
    ∀ (fuel : ℕ) (s : St), s.intr = none → (monitor dev s fuel).2 = false := by
  intro fuel
  induction fuel with
  | zero =>
    intro s h
    rfl
  | succ n ih =>
    intro s h
    rcases dev with _ | evs
    · have h2 : (flash SLOW_FLASH_TIME none s (n + 1)).2 = false :=
        (flashAux_none_no_intr SLOW_FLASH_TIME s.now (n + 1)
          { s with trace := s.trace ++ [Ev.flashCall SLOW_FLASH_TIME none] }
          h).1
      have hdet : detect_mouse_movement none s (n + 1) =
          ((flash SLOW_FLASH_TIME none s (n + 1)).1, DetectRes.stuck) := by
        simp [detect_mouse_movement, h2]
      simp [monitor, hdet]
    · obtain ⟨hnr, hni⟩ := readLoop_none_not_raised evs s h
      rcases hd : readLoop evs s with ⟨s1, dr⟩
      rw [hd] at hnr hni
      simp only at hnr hni
      cases dr with
      | raised => exact absurd rfl hnr
      | stuck => simp [monitor, detect_mouse_movement, hd]
      | returned =>
        obtain ⟨hs2, hsi, _⟩ := set_alarm_no_intr s1 hni
        rcases hs : set_alarm s1 with ⟨s2, b2⟩
        rw [hs] at hs2 hsi
        simp only at hs2 hsi
        subst hs2
        simp only [monitor, detect_mouse_movement, hd, hs]
        exact ih s2 hsi

lemma monitor_exit_props (dev : Option (List ℤ)) :
    ∀ (fuel : ℕ) (s s' : St), countCleanup s.trace = 0 →
      monitor dev s fuel = (s', true) →
      s'.relay = Level.low ∧ s'.led = Level.low ∧ s'.released = true ∧
      s'.trace.getLast? = some Ev.cleanup ∧ countCleanup s'.trace = 1 := by
  intro fuel
  induction fuel with
  | zero =>
    intro s s' _ h
    have h2 := congrArg Prod.snd h
    simp [monitor] at h2
  | succ n ih =>
    intro s s' hc h
    rcases dev with _ | evs
    · rcases hf : (flash SLOW_FLASH_TIME none s (n + 1)).2 with _ | _
      · have hdet : detect_mouse_movement none s (n + 1) =
            ((flash SLOW_FLASH_TIME none s (n + 1)).1, DetectRes.stuck) := by
          simp [detect_mouse_movement, hf]
        rw [show monitor none s (n + 1) =
            ((flash SLOW_FLASH_TIME none s (n + 1)).1, false) from by
          simp [monitor, hdet]] at h
        exact absurd (congrArg Prod.snd h) (by simp)
      · have hdet : detect_mouse_movement none s (n + 1) =
            ((flash SLOW_FLASH_TIME none s (n + 1)).1, DetectRes.returned) := by
          simp [detect_mouse_movement, hf]
        have hni : (flash SLOW_FLASH_TIME none s (n + 1)).1.intr = none :=
          flashAux_none_true_intr SLOW_FLASH_TIME s.now (n + 1)
            { s with trace := s.trace ++ [Ev.flashCall SLOW_FLASH_TIME none] }
            hf
        obtain ⟨hs2, hsi, _⟩ :=
          set_alarm_no_intr (flash SLOW_FLASH_TIME none s (n + 1)).1 hni
        rcases hs : set_alarm (flash SLOW_FLASH_TIME none s (n + 1)).1
          with ⟨s2, b2⟩
        rw [hs] at hs2 hsi
        simp only at hs2 hsi
        subst hs2
        rw [show monitor none s (n + 1) = monitor none s2 n from by
          simp [monitor, hdet, hs]] at h
        have := monitor_no_intr none n s2 hsi
        rw [h] at this
        exact absurd this (by simp)
    · rcases hd : readLoop evs s with ⟨s1, dr⟩
      have hcc : countCleanup s1.trace = 0 := by
        have := readLoop_cleanup_count evs s
        rw [hd] at this
        simp only at this
        rw [this, hc]
      cases dr with
      | raised =>
        rw [show monitor (some evs) s (n + 1) = (clean_up s1, true) from by
          simp [monitor, detect_mouse_movement, hd]] at h
        have hs' : s' = clean_up s1 := (congrArg Prod.fst h).symm
        subst hs'
        obtain ⟨c1, c2, c3, _, _, c6⟩ := clean_up_spec s1
        refine ⟨c1, c2, c3, ?_, ?_⟩
        · rw [c6, List.getLast?_append_of_ne_nil _ (by simp)]
          rfl
        · rw [countCleanup_clean_up, hcc]
      | stuck =>
        rw [show monitor (some evs) s (n + 1) = (s1, false) from by
          simp [monitor, detect_mouse_movement, hd]] at h
        exact absurd (congrArg Prod.snd h) (by simp)
      | returned =>
        rcases hs : set_alarm s1 with ⟨s2, b2⟩
        have hcc2 : countCleanup s2.trace = 0 := by
          have := set_alarm_cleanup_count s1
          rw [hs] at this
          simp only at this
          rw [this, hcc]
        cases b2 with
        | true =>
          rw [show monitor (some evs) s (n + 1) = (clean_up s2, true) from by
            simp [monitor, detect_mouse_movement, hd, hs]] at h
          have hs' : s' = clean_up s2 := (congrArg Prod.fst h).symm
          subst hs'
          obtain ⟨c1, c2, c3, _, _, c6⟩ := clean_up_spec s2
          refine ⟨c1, c2, c3, ?_, ?_⟩
          · rw [c6, List.getLast?_append_of_ne_nil _ (by simp)]
            rfl
          · rw [countCleanup_clean_up, hcc2]
        | false =>
          rw [show monitor (some evs) s (n + 1) = monitor (some evs) s2 n from
            by simp [monitor, detect_mouse_movement, hd, hs]] at h
          exact ih s2 s' hcc2 h

/-- Claim C2 (amended): whenever the siren loop exits through its own
interrupt handler — which is what happens when the single pending keyboard
interrupt fires during the motion-event wait or during the trigger
(snooze/siren sleeps) — the final state has the relay LOW, the indicator
LOW and the port released, the cleanup call is the last recorded event (so
there is no actuation after it) and cleanup ran exactly once. An interrupt
fired inside the timed-action flash loop is caught there instead and does
not exit the siren loop (see the counterexample). -/
theorem monitor_interrupt_cleanup (dev : Option (List ℤ)) (k fuel : ℕ)
    (s' : St) (h : monitor dev (initSt (some k)) fuel = (s', true)) :
    s'.relay = Level.low ∧ s'.led = Level.low ∧ s'.released = true ∧
    s'.trace.getLast? = some Ev.cleanup ∧ countCleanup s'.trace = 1 :=
  monitor_exit_props dev fuel (initSt (some k)) s' rfl h

/-- Witness for `monitor_interrupt_cleanup`: the interrupt fires at the
blocked event read of an empty device stream. -/
theorem monitor_interrupt_cleanup_w :
    (monitor (some ([] : List ℤ)) (initSt (some 0)) 1).1.relay = Level.low ∧
    (monitor (some ([] : List ℤ)) (initSt (some 0)) 1).1.led = Level.low ∧
    (monitor (some ([] : List ℤ)) (initSt (some 0)) 1).1.released = true ∧
    (monitor (some ([] : List ℤ)) (initSt (some 0)) 1).1.trace.getLast? =
      some Ev.cleanup ∧
    countCleanup (monitor (some ([] : List ℤ)) (initSt (some 0)) 1).1.trace =
      1 :=
  monitor_interrupt_cleanup (some []) 0 1
    (monitor (some ([] : List ℤ)) (initSt (some 0)) 1).1 rfl

/-- Counterexample to claim C2 as stated: with the motion device absent, an
interrupt that fires inside the degraded-mode slow flash (mid-flash, inside
the wait-for-motion step) is swallowed by `flash`: it runs `clean_up` there,
but the siren loop does not exit (the run is still looping when fuel runs
out) and the loop goes on to actuate the relay — the trace contains GPIO
writes after the cleanup call, contradicting "loop exited, no further
actuation after cleanup". -/
theorem monitor_midflash_interrupt_cex :
    (monitor none (initSt (some 0)) 2).2 = false ∧
    outAfterCleanup (monitor none (initSt (some 0)) 2).1.trace = true :=
  ⟨rfl, rfl⟩

end Main

end Alarm
